import Mathlib

/-!
Verification of the chess-scoring-analyze engine orchestration layer.

The definitions below are a shallow embedding of the TypeScript sources:
`src/lib/stockfish.ts` (the Stockfish protocol client: `analyzePosition`'s
message loop, `getTopMoves`, `analyzeGame`, `classifyMove`, `terminate`)
and the `GeminiChessAI` class (fallback analysis, material counting,
confidence and accuracy computation).

Modelling conventions:
- JavaScript numbers are embedded as `ℚ`; a possibly-NaN number is
  embedded as `Option ℚ` (or `Option Int`) with `none` standing for NaN
  (or for `undefined`): every JS comparison against NaN is false, which
  the `Option`-aware comparison helpers reproduce.
- `parseInt` is embedded as `parseIntJS`, returning `none` where JS
  returns NaN (no digits to parse); like JS it parses the longest
  leading digit run and ignores trailing junk.
- Wall-clock time (the `time` field of `AnalysisResult`) is not modelled;
  the timeout is modelled by the end of the list of messages the engine
  delivered before the time budget elapsed.
- The chess.js library is an external collaborator; it is embedded as an
  abstract state type with `fen`/`applyMove` operations, and the engine
  process as an oracle giving the result of each successive search.
-/

/-- JS `parseInt` on a token: optional sign, then the longest leading
digit run; `none` models the NaN result when no digits are present. -/
def parseIntJS (s : String) : Option Int :=
  let cs := s.toList
  let signed : Int × List Char :=
    match cs with
    | '-' :: r => (-1, r)
    | '+' :: r => (1, r)
    | r => (1, r)
  let digits := signed.2.takeWhile Char.isDigit
  if digits.isEmpty then none
  else some (signed.1 * (digits.foldl (fun n c => 10 * n + (c.toNat - 48)) 0 : Nat))

/-- Split a character list at every space, keeping empty groups,
matching JS `split(' ')` on the underlying characters. -/
def splitChars : List Char → List (List Char)
  | [] => [[]]
  | c :: rest =>
    match splitChars rest with
    | [] => [[]]
    | g :: gs => if c = ' ' then [] :: g :: gs else (c :: g) :: gs

/-- JS `message.split(' ')`. -/
def splitSpace (s : String) : List String :=
  (splitChars s.toList).map (fun cs => String.mk cs)

/-- JS `s.startsWith(p)`. -/
def startsWithJS (s p : String) : Bool := p.toList.isPrefixOf s.toList

/-- The mutable accumulator of `StockfishEngine.analyzePosition`
(src/lib/stockfish.ts lines 106-111), which is also the shape of the
returned `AnalysisResult` (minus the unmodelled wall-clock `time`).
`none` in a numeric field models NaN (for `mate`, NaN or `undefined`). -/
structure AnalysisAcc where
  bestMove : String
  evaluation : Option ℚ
  depthReached : Option Int
  nodes : Option Int
  pv : List String
  mate : Option Int
deriving DecidableEq, Repr

/-- Initial accumulator values: `bestMove = ''`, `evaluation = 0`,
`depthReached = 0`, `nodes = 0`, `pv = []`, `mate = undefined`. -/
def initAcc : AnalysisAcc :=
  { bestMove := "", evaluation := some 0, depthReached := some 0,
    nodes := some 0, pv := [], mate := none }

/-- `mate > 0 ? 10000 - mate : -10000 - mate` (src/lib/stockfish.ts
line 155), on a non-NaN mate distance. -/
def mateEval (n : Int) : ℚ :=
  if 0 < n then (10000 : ℚ) - (n : ℚ) else (-10000 : ℚ) - (n : ℚ)

/-- The token walk over one `info` line (src/lib/stockfish.ts lines
145-163): `depth`/`nodes`/`score cp`/`score mate` update the
accumulator from the following token(s); `pv` consumes the rest of the
line and stops the walk (the `break`); any other token is skipped. -/
def processInfoTokens (acc : AnalysisAcc) : List String → AnalysisAcc
  | [] => acc
  | t :: rest =>
    if t = "depth" then
      processInfoTokens { acc with depthReached := rest.head?.bind parseIntJS } rest
    else if t = "nodes" then
      processInfoTokens { acc with nodes := rest.head?.bind parseIntJS } rest
    else if t = "score" then
      if rest.head? = some "mate" then
        let m := (rest.get? 1).bind parseIntJS
        processInfoTokens { acc with mate := m, evaluation := m.map mateEval } rest
      else if rest.head? = some "cp" then
        processInfoTokens
          { acc with evaluation := ((rest.get? 1).bind parseIntJS).map (fun n => (n : ℚ) / 100) }
          rest
      else
        processInfoTokens acc rest
    else if t = "pv" then
      { acc with pv := rest }
    else
      processInfoTokens acc rest

/-- JS `depthReached >= depth` where `depthReached` may be NaN:
a comparison against NaN is false. -/
def depthGE (d : Option Int) (lim : Int) : Bool :=
  match d with
  | some v => decide (lim ≤ v)
  | none => false

/-- The `onmessage` loop of `analyzePosition` over the messages the
engine delivers before the time budget elapses: a `bestmove` line
resolves at once with the accumulated snapshot and the parsed move; an
`info` line updates the accumulator and resolves early when the depth
limit is reached (sending `stop`); any other line is ignored; when the
message list is exhausted the timeout fires and the promise resolves
with the last accumulated snapshot (src/lib/stockfish.ts lines
113-181). An absent token after `bestmove` is modelled as `""`. -/
def searchLoop (depthLimit : Int) (acc : AnalysisAcc) : List String → AnalysisAcc
  | [] => acc
  | message :: rest =>
    if startsWithJS message "bestmove" then
      { acc with bestMove := (splitSpace message).getD 1 "" }
    else if startsWithJS message "info" then
      let acc2 := processInfoTokens acc (splitSpace message)
      if depthGE acc2.depthReached depthLimit then acc2
      else searchLoop depthLimit acc2 rest
    else
      searchLoop depthLimit acc rest

/-- The pure accumulation of all progress events of a message list,
ignoring every stop condition: the reference value for the
"last accumulated progress snapshot". -/
def accumulate (acc : AnalysisAcc) : List String → AnalysisAcc
  | [] => acc
  | m :: rest =>
    accumulate (if startsWithJS m "info" then processInfoTokens acc (splitSpace m) else acc) rest

/-- Decides that neither early stop condition fires on a message list:
no message is a terminal `bestmove` line, and no `info` line pushes the
accumulated depth to the depth limit — i.e. the search ends by timeout. -/
def noEarlyStop (depthLimit : Int) (acc : AnalysisAcc) : List String → Bool
  | [] => true
  | m :: rest =>
    if startsWithJS m "bestmove" then false
    else if startsWithJS m "info" then
      let acc2 := processInfoTokens acc (splitSpace m)
      !(depthGE acc2.depthReached depthLimit) && noEarlyStop depthLimit acc2 rest
    else
      noEarlyStop depthLimit acc rest

/-- The classification flags of a `PositionAnalysis`; an absent flag in
the TS object spread is modelled as `false` (both are falsy). -/
structure Classification where
  blunder : Bool := false
  mistake : Bool := false
  inaccuracy : Bool := false
  brilliant : Bool := false
  best : Bool := false
deriving DecidableEq, Repr

/-- Number of flags set in a classification. -/
def flagCount (c : Classification) : Nat :=
  (if c.blunder then 1 else 0) + (if c.mistake then 1 else 0) +
    (if c.inaccuracy then 1 else 0) + (if c.brilliant then 1 else 0) +
    (if c.best then 1 else 0)

/-- `StockfishEngine.classifyMove` (src/lib/stockfish.ts lines 250-272).
The evaluation is the possibly-NaN JS number; a NaN (`none`) fails every
comparison and falls through to the empty classification, exactly as in
JS. -/
def classifyMove (evaluation : Option ℚ) (moveIndex : Nat) : Classification :=
  match evaluation with
  | none => {}
  | some e =>
    let absEval := |e|
    if absEval ≥ 3 then { blunder := true }
    else if absEval ≥ 3 / 2 then { mistake := true }
    else if absEval ≥ 1 / 2 then { inaccuracy := true }
    else if absEval ≤ 1 / 10 then { best := true }
    else if absEval ≤ 1 / 5 ∧ moveIndex > 10 then { brilliant := true }
    else {}

/-- One element of the list returned by `analyzeGame`
(src/lib/stockfish.ts lines 237-242): the pre-move FEN, the SAN of the
move actually played, the singleton list holding that ply's
`AnalysisResult`, and the spread classification flags. -/
structure PositionAnalysis where
  fen : String
  move : String
  analysis : List AnalysisAcc
  cls : Classification
deriving DecidableEq, Repr

/-- The chess.js capability that `analyzeGame` uses after parsing:
an abstract position state with the current FEN and SAN move
application (`chess.fen()` / `chess.move(san)`), starting from the
state produced by `chess.reset()`. -/
structure ChessLib (S : Type) where
  initial : S
  fen : S → String
  applyMove : S → String → S

/-- One entry of `chess.history({ verbose: true })`; only the `san`
field is consumed by `analyzeGame`. -/
structure VerboseMove where
  san : String
deriving DecidableEq, Repr

/-- Replay a list of verbose moves from a state by SAN application. -/
def replay {S : Type} (svc : ChessLib S) (s : S) (ms : List VerboseMove) : S :=
  ms.foldl (fun t m => svc.applyMove t m.san) s

/-- The `for` loop of `StockfishEngine.analyzeGame`
(src/lib/stockfish.ts lines 228-245): for each remaining history entry,
take the current FEN, run one search (the oracle gives the engine's
result for the i-th search at that FEN), classify the move from the
search's evaluation and the ply index, push the entry, then apply the
move. -/
def analyzeGameGo {S : Type} (svc : ChessLib S) (oracle : Nat → String → AnalysisAcc) :
    S → Nat → List VerboseMove → List PositionAnalysis
  | _, _, [] => []
  | s, i, mv :: rest =>
    let fen := svc.fen s
    let a := oracle i fen
    { fen := fen, move := mv.san, analysis := [a], cls := classifyMove a.evaluation i }
      :: analyzeGameGo svc oracle (svc.applyMove s mv.san) (i + 1) rest

/-- The per-ply list `analyzeGame` builds for a successfully parsed
game. -/
def analyzeGameList {S : Type} (svc : ChessLib S) (oracle : Nat → String → AnalysisAcc)
    (history : List VerboseMove) : List PositionAnalysis :=
  analyzeGameGo svc oracle svc.initial 0 history

/-- The error taxonomy the specification assigns to `analyzeGame`. -/
inductive GameError where
  | InvalidGameRecord : GameError
deriving DecidableEq, Repr

/-- `StockfishEngine.analyzeGame` (src/lib/stockfish.ts lines 214-248)
with its fallibility made explicit. `parsed` is the outcome of
`chess.loadPgn(pgn)`: `none` when loadPgn throws. The catch block
(lines 220-223) logs the error and returns the (still empty) `analyses`
array — it does not rethrow, so the function never produces an error
value. -/
def analyzeGameE {S : Type} (svc : ChessLib S) (oracle : Nat → String → AnalysisAcc)
    (parsed : Option (List VerboseMove)) : Except GameError (List PositionAnalysis) :=
  match parsed with
  | none => Except.ok []
  | some history => Except.ok (analyzeGameList svc oracle history)

/-- The mutable state of a `StockfishEngine` instance that `terminate`
and the entry of `analyzePosition` consult: whether `this.engine` is
set and the `isReady` flag. -/
structure EngineClient where
  hasEngine : Bool
  isReady : Bool
deriving DecidableEq, Repr

/-- `StockfishEngine.terminate` (src/lib/stockfish.ts lines 274-279):
if an engine object exists, post `quit` and clear the readiness flag;
otherwise do nothing. -/
def terminate (c : EngineClient) : EngineClient :=
  if c.hasEngine then { c with isReady := false } else c

/-- What the first statement of `analyzePosition` does with the client
state (src/lib/stockfish.ts lines 100-102): a not-ready client is
re-initialized (`await this.initialize()`), a ready one proceeds with
the search. `failNotReady` is the behaviour the specification claims
(rejecting with an EngineNotReady error); no code path produces it. -/
inductive SearchEntry where
  | proceed : SearchEntry
  | reinit : SearchEntry
  | failNotReady : SearchEntry
deriving DecidableEq, Repr

/-- The entry dispatch of `analyzePosition` on the client state. -/
def analyzePositionEntry (c : EngineClient) : SearchEntry :=
  if c.isReady then SearchEntry.proceed else SearchEntry.reinit

/-- Piece colors of a chess.js board square. -/
inductive PColor where
  | w : PColor
  | b : PColor
deriving DecidableEq, Repr

/-- Piece kinds of a chess.js board square (chess.js lowercase codes). -/
inductive PKind where
  | p : PKind
  | n : PKind
  | b : PKind
  | r : PKind
  | q : PKind
  | k : PKind
deriving DecidableEq, Repr

/-- A piece on a chess.js board square. -/
structure Piece where
  color : PColor
  kind : PKind
deriving DecidableEq, Repr

/-- The `materialValues` table of `GeminiChessAI.calculateMaterial`:
`p=1, n=3, b=3, r=5, q=9, k=0`. -/
def materialValue : PKind → Nat
  | PKind.p => 1
  | PKind.n => 3
  | PKind.b => 3
  | PKind.r => 5
  | PKind.q => 9
  | PKind.k => 0

/-- The per-side totals accumulated by `calculateMaterial`. -/
structure MaterialCount where
  white : Nat
  black : Nat
deriving DecidableEq, Repr

/-- `GeminiChessAI.calculateMaterial`: walk every square of
`chess.board()` (a list of rows of optional pieces) and add each
piece's value to its side's total. -/
def calculateMaterial (board : List (List (Option Piece))) : MaterialCount :=
  board.foldl
    (fun acc row =>
      row.foldl
        (fun acc2 sq =>
          match sq with
          | none => acc2
          | some piece =>
            match piece.color with
            | PColor.w => { acc2 with white := acc2.white + materialValue piece.kind }
            | PColor.b => { acc2 with black := acc2.black + materialValue piece.kind })
        acc)
    { white := 0, black := 0 }

/-- The position data `generateFallbackAnalysis` reads through chess.js:
the parsed board of the request's FEN and the SAN list of
`chess.moves({ verbose: true })`. -/
structure FallbackPosition where
  board : List (List (Option Piece))
  legalMoves : List String
deriving Repr

/-- The fields of an `AIMoveSuggestion` that the core computes
numerically; the reasoning text is presentation-only and not modelled. -/
structure MoveSuggestion where
  move : String
  confidence : ℚ
  evaluation : ℚ
  alternatives : List (String × ℚ)
deriving DecidableEq, Repr

/-- `GeminiChessAI.generateFallbackAnalysis`: evaluation is the static
material balance (white minus black), confidence is the constant 0.3,
the suggested move is `moves[Math.floor(rand * Math.min(moves.length,
5))]` (falling back to the literal `'e2e4'` when that index is out of
range), and the alternatives are `moves.slice(1, 4)` with evaluation 0.
`rand` is the `Math.random()` draw. -/
def generateFallbackAnalysis (pos : FallbackPosition) (rand : ℚ) : MoveSuggestion :=
  let material := calculateMaterial pos.board
  let evaluation : ℚ := (material.white : ℚ) - (material.black : ℚ)
  let idx : Nat := (Int.floor (rand * (min pos.legalMoves.length 5 : Nat))).toNat
  let randomMove : Option String := pos.legalMoves.get? idx
  { move := randomMove.getD "e2e4",
    confidence := 3 / 10,
    evaluation := evaluation,
    alternatives := ((pos.legalMoves.drop 1).take 3).map (fun m => (m, (0 : ℚ))) }

/-- The catch structure of `GeminiChessAI.analyzePosition`: when the
engine path produced a result it is used, otherwise (any engine
failure, in particular an unavailable engine) the caught error is
replaced by the fallback analysis — no error escapes. -/
def analyzePositionAI (engineOutcome : Option MoveSuggestion) (pos : FallbackPosition)
    (rand : ℚ) : MoveSuggestion :=
  match engineOutcome with
  | some r => r
  | none => generateFallbackAnalysis pos rand

/-- `GeminiChessAI.calculateConfidence` (part_000 lines 498-503):
1.0 with fewer than two candidate results, otherwise
`min(1.0, |best.evaluation - topMoves[1].evaluation| / 2.0)`.
A NaN evaluation (`none`) propagates: `Math.min(1, NaN)` is NaN. -/
def calculateConfidence (bestMove : AnalysisAcc) (topMoves : List AnalysisAcc) : Option ℚ :=
  if topMoves.length < 2 then some 1
  else
    match topMoves.get? 1 with
    | none => none
    | some second =>
      match bestMove.evaluation, second.evaluation with
      | some a, some b => some (min 1 (|a - b| / 2))
      | _, _ => none

/-- The flag test of `GeminiChessAI.calculateAccuracy`'s filter:
`!m.blunder && !m.mistake`. -/
def accurateMove (m : PositionAnalysis) : Bool :=
  !m.cls.blunder && !m.cls.mistake

/-- `GeminiChessAI.calculateAccuracy` (part_000 lines 525-530): 0 for an
empty move list, otherwise the fraction of moves flagged neither
blunder nor mistake, times 100. -/
def calculateAccuracy (moves : List PositionAnalysis) : ℚ :=
  if moves.length = 0 then 0
  else ((moves.filter accurateMove).length : ℚ) / (moves.length : ℚ) * 100

/-- `analyses.filter((_, i) => i % 2 === 0)`: the first mover's plies. -/
def whiteMovesOf (analyses : List PositionAnalysis) : List PositionAnalysis :=
  (analyses.enum.filter (fun p => p.1 % 2 = 0)).map Prod.snd

/-- `analyses.filter((_, i) => i % 2 === 1)`: the second mover's plies. -/
def blackMovesOf (analyses : List PositionAnalysis) : List PositionAnalysis :=
  (analyses.enum.filter (fun p => p.1 % 2 = 1)).map Prod.snd

/-- The accuracy/critical-moment part of the summary built by
`GeminiChessAI.generateGameSummary` (part_000 lines 505-523); the
placeholder metadata fields (rating, result, time control, opening) are
not modelled. -/
structure GameSummary where
  whiteAccuracy : ℚ
  blackAccuracy : ℚ
  criticalMoments : Nat
deriving DecidableEq, Repr

/-- `GeminiChessAI.generateGameSummary`: split the analyses by ply
parity, score each side with `calculateAccuracy`, and count the plies
flagged blunder or brilliant. -/
def generateGameSummary (analyses : List PositionAnalysis) : GameSummary :=
  { whiteAccuracy := calculateAccuracy (whiteMovesOf analyses),
    blackAccuracy := calculateAccuracy (blackMovesOf analyses),
    criticalMoments := (analyses.filter (fun a => a.cls.blunder || a.cls.brilliant)).length }

/-- The environment of one `getTopMoves` sweep: `searchAt i` is the
result the engine returns for the i-th `analyzePosition(fen, 15, 5000)`
call (the same original FEN every iteration, with no exclusion of
previously returned moves), and `legalMove san` tells whether
`new Chess(fen).move(san)` succeeds (it throws on an illegal move). -/
structure SweepOracle where
  searchAt : Nat → AnalysisAcc
  legalMove : String → Bool

/-- The loop body of `StockfishEngine.getTopMoves` (src/lib/stockfish.ts
lines 191-209): each of the up-to-`numMoves` iterations runs one search;
a falsy (empty) `bestMove` skips the push, a pushed move that chess.js
rejects breaks out of the loop after the push. -/
def getTopMovesGo (o : SweepOracle) : Nat → Nat → List AnalysisAcc
  | _, 0 => []
  | i, fuel + 1 =>
    let analysis := o.searchAt i
    if analysis.bestMove = "" then getTopMovesGo o (i + 1) fuel
    else if o.legalMove analysis.bestMove then analysis :: getTopMovesGo o (i + 1) fuel
    else [analysis]

/-- `StockfishEngine.getTopMoves`. -/
def getTopMoves (o : SweepOracle) (numMoves : Nat) : List AnalysisAcc :=
  getTopMovesGo o 0 numMoves

/-- The number of `analyzePosition` calls a `getTopMoves` sweep issues
(one per executed loop iteration; the break after an illegal pushed
move ends the counting). -/
def getTopMovesCalls (o : SweepOracle) : Nat → Nat → Nat
  | _, 0 => 0
  | i, fuel + 1 =>
    let analysis := o.searchAt i
    if analysis.bestMove = "" then 1 + getTopMovesCalls o (i + 1) fuel
    else if o.legalMove analysis.bestMove then 1 + getTopMovesCalls o (i + 1) fuel
    else 1

/-- An eight-square rank with the back-rank piece order r n b q k b n r. -/
def backRank (c : PColor) : List (Option Piece) :=
  [some ⟨c, PKind.r⟩, some ⟨c, PKind.n⟩, some ⟨c, PKind.b⟩, some ⟨c, PKind.q⟩,
    some ⟨c, PKind.k⟩, some ⟨c, PKind.b⟩, some ⟨c, PKind.n⟩, some ⟨c, PKind.r⟩]

/-- An eight-square rank of pawns of one color. -/
def pawnRank (c : PColor) : List (Option Piece) :=
  List.replicate 8 (some ⟨c, PKind.p⟩)

/-- An empty eight-square rank. -/
def emptyRank : List (Option Piece) := List.replicate 8 (none : Option Piece)

/-- `chess.board()` for the standard starting position (rank 8 first,
as chess.js returns it). -/
def startBoard : List (List (Option Piece)) :=
  [backRank PColor.b, pawnRank PColor.b, emptyRank, emptyRank,
    emptyRank, emptyRank, pawnRank PColor.w, backRank PColor.w]

/-- The 20 SAN moves legal in the standard starting position. -/
def startLegalMoves : List String :=
  ["a3", "a4", "b3", "b4", "c3", "c4", "d3", "d4", "e3", "e4",
    "f3", "f4", "g3", "g4", "h3", "h4", "Na3", "Nc3", "Nf3", "Nh3"]

/-- Claim C1: for every evaluation and move index, `classifyMove` sets
at most one of the five flags, chosen by checking the absolute
evaluation against the thresholds in priority order with the first
match winning (`≥3` blunder, else `≥1.5` mistake, else `≥0.5`
inaccuracy, else `≤0.1` best, else `≤0.2` with index above 10
brilliant, else nothing); a swing of exactly 3.0 is a blunder, not a
mistake. -/
theorem classifyMove_priority (e : ℚ) (i : Nat) :
    flagCount (classifyMove (some e) i) ≤ 1
    ∧ (3 ≤ |e| → classifyMove (some e) i = { blunder := true })
    ∧ (3 / 2 ≤ |e| → |e| < 3 → classifyMove (some e) i = { mistake := true })
    ∧ (1 / 2 ≤ |e| → |e| < 3 / 2 → classifyMove (some e) i = { inaccuracy := true })
    ∧ (|e| ≤ 1 / 10 → classifyMove (some e) i = { best := true })
    ∧ (1 / 10 < |e| → |e| ≤ 1 / 5 → 10 < i → classifyMove (some e) i = { brilliant := true })
    ∧ (1 / 10 < |e| → |e| < 1 / 2 → (1 / 5 < |e| ∨ i ≤ 10) → classifyMove (some e) i = {})
    ∧ classifyMove (some 3) 0 = { blunder := true } := by
  refine ⟨?_, ?_, ?_, ?_, ?_, ?_, ?_, ?_⟩
  · simp only [classifyMove]
    split_ifs <;> decide
  · intro h
    simp only [classifyMove]
    rw [if_pos h]
  · intro h1 h2
    simp only [classifyMove]
    split_ifs with a1 a2 <;> first | rfl | linarith
  · intro h1 h2
    simp only [classifyMove]
    split_ifs with a1 a2 a3 <;> first | rfl | linarith
  · intro h1
    simp only [classifyMove]
    split_ifs with a1 a2 a3 a4 <;> first | rfl | linarith
  · intro h1 h2 h3
    simp only [classifyMove]
    split_ifs with a1 a2 a3 a4 a5 <;>
      first
        | rfl
        | linarith
        | (exact absurd ⟨h2, h3⟩ a5)
  · intro h1 h2 h3
    simp only [classifyMove]
    split_ifs with a1 a2 a3 a4 a5 <;>
      first
        | rfl
        | linarith
        | (rcases h3 with h3 | h3
           · linarith [a5.1]
           · exact absurd a5.2 (by omega))
  · decide

/-- Closed instance of `classifyMove_priority`: the flag count bound
and the inclusive 3.0-pawn blunder boundary at a concrete input. -/
theorem classifyMove_priority_witness :
    flagCount (classifyMove (some 3) 0) ≤ 1
    ∧ classifyMove (some 3) 0 = { blunder := true } :=
  ⟨(classifyMove_priority 3 0).1,
    (classifyMove_priority 3 0).2.1 (by rw [abs_of_nonneg] <;> norm_num)⟩

/-- The game-analysis loop produces one entry per remaining history
ply. -/
theorem analyzeGameGo_length {S : Type} (svc : ChessLib S) (oracle : Nat → String → AnalysisAcc) :
    ∀ (history : List VerboseMove) (s : S) (i0 : Nat),
      (analyzeGameGo svc oracle s i0 history).length = history.length := by
  intro history
  induction history with
  | nil => intro s i0; rfl
  | cons mv rest ih =>
    intro s i0
    simp only [analyzeGameGo, List.length_cons, ih]

/-- Closed form of the i-th entry of the game-analysis loop, for any
start state and index offset. -/
theorem analyzeGameGo_get {S : Type} (svc : ChessLib S) (oracle : Nat → String → AnalysisAcc) :
    ∀ (history : List VerboseMove) (s : S) (i0 i : Nat),
      (analyzeGameGo svc oracle s i0 history)[i]? =
        history[i]?.map (fun mv =>
          let fen := svc.fen (replay svc s (history.take i))
          let a := oracle (i0 + i) fen
          { fen := fen, move := mv.san, analysis := [a],
            cls := classifyMove a.evaluation (i0 + i) }) := by
  intro history
  induction history with
  | nil => intro s i0 i; simp [analyzeGameGo]
  | cons mv rest ih =>
    intro s i0 i
    cases i with
    | zero =>
      simp [analyzeGameGo, replay]
    | succ k =>
      simp only [analyzeGameGo, List.getElem?_cons_succ, List.take_succ_cons]
      rw [ih]
      have harith : i0 + 1 + k = i0 + (k + 1) := by omega
      cases h : rest[k]? with
      | none => simp [h]
      | some mv2 =>
        simp only [h, Option.map_some', harith, replay, List.foldl_cons]

/-- Claim C2: for a successfully parsed game, `analyzeGame` returns
exactly one PositionAnalysis per ply, in ply order: the i-th entry
records the FEN of the position before the i-th ply (the initial state
with the first i moves applied) together with the SAN of the move
actually played there — no reordering, no gaps, no duplicates. -/
theorem analyzeGame_per_ply {S : Type} (svc : ChessLib S) (oracle : Nat → String → AnalysisAcc)
    (history : List VerboseMove) :
    (analyzeGameList svc oracle history).length = history.length
    ∧ ∀ i : Nat, (analyzeGameList svc oracle history)[i]? =
        history[i]?.map (fun mv =>
          let fen := svc.fen (replay svc svc.initial (history.take i))
          let a := oracle i fen
          { fen := fen, move := mv.san, analysis := [a],
            cls := classifyMove a.evaluation i }) := by
  constructor
  · exact analyzeGameGo_length svc oracle history svc.initial 0
  · intro i
    have h := analyzeGameGo_get svc oracle history svc.initial 0 i
    simpa using h

/-- A concrete chess.js capability over a counter state, used to
evaluate the game analyzer at closed inputs. -/
def natChess : ChessLib Nat :=
  { initial := 0, fen := fun n => "pos" ++ toString n, applyMove := fun s _ => s + 1 }

/-- A concrete engine oracle returning the initial accumulator for
every search. -/
def constOracle : Nat → String → AnalysisAcc := fun _ _ => initAcc

/-- Claim C3 counterexample: on unparseable notation `analyzeGame`
returns successfully with the empty analysis list — the failure is
swallowed inside `analyzeGame`, and no InvalidGameRecord error reaches
the caller. -/
theorem analyzeGame_swallow_counterexample :
    analyzeGameE natChess constOracle none = Except.ok []
    ∧ analyzeGameE natChess constOracle none ≠ Except.error GameError.InvalidGameRecord := by
  constructor
  · rfl
  · intro h
    simp [analyzeGameE] at h

/-- Claim C3 amended: on malformed (unparseable) game notation
`analyzeGame` does not surface an InvalidGameRecord error to the
caller: the catch block swallows the parse failure and returns the
empty analysis list itself; in fact no input makes `analyzeGame` return
an error. -/
theorem analyzeGame_swallow (S : Type) (svc : ChessLib S)
    (oracle : Nat → String → AnalysisAcc) (parsed : Option (List VerboseMove)) :
    analyzeGameE svc oracle parsed ≠ Except.error GameError.InvalidGameRecord
    ∧ (parsed = none → analyzeGameE svc oracle parsed = Except.ok []) := by
  constructor
  · cases parsed <;> simp [analyzeGameE]
  · intro h
    subst h
    rfl

/-- Closed instance of `analyzeGame_swallow` at a concrete malformed
input. -/
theorem analyzeGame_swallow_witness :
    analyzeGameE natChess constOracle none ≠ Except.error GameError.InvalidGameRecord
    ∧ analyzeGameE natChess constOracle none = Except.ok [] :=
  ⟨(analyzeGame_swallow Nat natChess constOracle none).1,
    (analyzeGame_swallow Nat natChess constOracle none).2 rfl⟩

/-- Claim C5 counterexample: after `terminate` on a live client the
next `analyzePosition` call re-initializes the engine — it does not
fail with EngineNotReady. -/
theorem terminate_no_notReady_counterexample :
    analyzePositionEntry (terminate { hasEngine := true, isReady := true }) = SearchEntry.reinit
    ∧ SearchEntry.reinit ≠ SearchEntry.failNotReady := by
  constructor
  · rfl
  · decide

/-- Claim C5 amended: `terminate` is idempotent (safe to call
repeatedly) and marks a live client not-ready, but a subsequent search
does not fail with EngineNotReady: `analyzePosition` re-runs
`initialize()` on a not-ready client instead. -/
theorem terminate_then_search (c : EngineClient) :
    terminate (terminate c) = terminate c
    ∧ (c.hasEngine = true →
        (terminate c).isReady = false
          ∧ analyzePositionEntry (terminate c) = SearchEntry.reinit)
    ∧ analyzePositionEntry (terminate c) ≠ SearchEntry.failNotReady := by
  rcases c with ⟨he, ir⟩
  cases he <;> cases ir <;> refine ⟨by decide, fun h => by simp_all [terminate, analyzePositionEntry], by decide⟩

/-- Closed instance of `terminate_then_search` on a live, ready
client. -/
theorem terminate_then_search_witness :
    terminate (terminate { hasEngine := true, isReady := true })
        = terminate { hasEngine := true, isReady := true }
    ∧ ((terminate { hasEngine := true, isReady := true }).isReady = false
        ∧ analyzePositionEntry (terminate { hasEngine := true, isReady := true })
            = SearchEntry.reinit) :=
  ⟨(terminate_then_search { hasEngine := true, isReady := true }).1,
    (terminate_then_search { hasEngine := true, isReady := true }).2.1 rfl⟩

/-- Claim C6: in a search where the engine emits no terminal bestmove
line and no progress line reaches the depth limit within the time
budget (so the timeout is what ends the wait), the search resolves
normally — not with an error — with the last accumulated progress
snapshot: the fold of every intermediate progress event over the
initial accumulator. -/
theorem searchLoop_timeout (depthLimit : Int) :
    ∀ (msgs : List String) (acc : AnalysisAcc),
      noEarlyStop depthLimit acc msgs = true →
      searchLoop depthLimit acc msgs = accumulate acc msgs := by
  intro msgs
  induction msgs with
  | nil => intro acc _; rfl
  | cons m rest ih =>
    intro acc h
    by_cases hb : startsWithJS m "bestmove" = true
    · rw [noEarlyStop, if_pos hb] at h
      cases h
    · by_cases hi : startsWithJS m "info" = true
      · rw [noEarlyStop, if_neg hb, if_pos hi] at h
        simp only [Bool.and_eq_true, Bool.not_eq_true'] at h
        rw [searchLoop, accumulate]
        simp only [if_neg hb, if_pos hi, h.1, Bool.false_eq_true, if_false]
        exact ih _ h.2
      · rw [noEarlyStop, if_neg hb, if_neg hi] at h
        rw [searchLoop, if_neg hb, if_neg hi, accumulate, if_neg hi]
        exact ih _ h

/-- Closed instance of `searchLoop_timeout`: a concrete engine session
with two progress events, an unrecognized line and no bestmove resolves
to the accumulated snapshot. -/
theorem searchLoop_timeout_witness :
    noEarlyStop 18 initAcc
        ["info depth 3 score cp 42 pv e2e4 e7e5", "noise", "info depth 5 nodes 1000 score cp 17"]
        = true
    ∧ searchLoop 18 initAcc
        ["info depth 3 score cp 42 pv e2e4 e7e5", "noise", "info depth 5 nodes 1000 score cp 17"]
        = accumulate initAcc
        ["info depth 3 score cp 42 pv e2e4 e7e5", "noise", "info depth 5 nodes 1000 score cp 17"] :=
  ⟨by decide,
    searchLoop_timeout 18
      ["info depth 3 score cp 42 pv e2e4 e7e5", "noise", "info depth 5 nodes 1000 score cp 17"]
      initAcc (by decide)⟩

/-- Claim C7: the progress-event parser maps a `score cp n` field to
the evaluation n/100 and a `score mate n` field to `mateEval n`, whose
sign matches the mate direction (positive when the side to move mates)
and whose magnitude is the constant 10000 minus the mate distance, so
that among mate scores of one sign a shorter mate is strictly more
extreme; unrecognized tokens are skipped, not errors. -/
theorem infoParser_spec :
    (∀ (acc : AnalysisAcc) (s : String) (rest : List String),
        processInfoTokens acc ("score" :: "cp" :: s :: rest) =
          processInfoTokens
            { acc with evaluation := (parseIntJS s).map (fun n => (n : ℚ) / 100) }
            ("cp" :: s :: rest))
    ∧ (∀ (acc : AnalysisAcc) (s : String) (rest : List String),
        processInfoTokens acc ("score" :: "mate" :: s :: rest) =
          processInfoTokens
            { acc with mate := parseIntJS s, evaluation := (parseIntJS s).map mateEval }
            ("mate" :: s :: rest))
    ∧ (∀ (acc : AnalysisAcc) (t : String) (rest : List String),
        t ≠ "depth" → t ≠ "nodes" → t ≠ "score" → t ≠ "pv" →
        processInfoTokens acc (t :: rest) = processInfoTokens acc rest)
    ∧ (∀ n : Int, 0 < n → n < 10000 →
        0 < mateEval n ∧ |mateEval n| = 10000 - (n : ℚ))
    ∧ (∀ n : Int, -10000 < n → n < 0 →
        mateEval n < 0 ∧ |mateEval n| = 10000 - |(n : ℚ)|)
    ∧ (∀ m n : Int, 0 < m → m < n → mateEval n < mateEval m)
    ∧ (∀ m n : Int, n < m → m < 0 → mateEval m < mateEval n) := by
  refine ⟨?_, ?_, ?_, ?_, ?_, ?_, ?_⟩
  · intro acc s rest
    rfl
  · intro acc s rest
    rfl
  · intro acc t rest h1 h2 h3 h4
    rw [processInfoTokens, if_neg h1, if_neg h2, if_neg h3, if_neg h4]
  · intro n h1 h2
    have hn : (0 : ℚ) < (n : ℚ) := by exact_mod_cast h1
    have hn2 : (n : ℚ) < 10000 := by exact_mod_cast h2
    rw [mateEval, if_pos h1]
    constructor
    · linarith
    · rw [abs_of_nonneg (by linarith)]
  · intro n h1 h2
    have hn : (n : ℚ) < 0 := by exact_mod_cast h2
    have hn2 : (-10000 : ℚ) < (n : ℚ) := by exact_mod_cast h1
    rw [mateEval, if_neg (by omega)]
    constructor
    · linarith
    · rw [abs_of_nonpos (by linarith), abs_of_nonpos (by linarith)]
      ring
  · intro m n h1 h2
    have hm : (0 : ℚ) < (m : ℚ) := by exact_mod_cast h1
    have hmn : (m : ℚ) < (n : ℚ) := by exact_mod_cast h2
    rw [mateEval, mateEval, if_pos h1, if_pos (by omega)]
    linarith
  · intro m n h1 h2
    have hm : (m : ℚ) < 0 := by exact_mod_cast h2
    have hnm : (n : ℚ) < (m : ℚ) := by exact_mod_cast h1
    rw [mateEval, mateEval, if_neg (by omega), if_neg (by omega)]
    linarith

/-- Closed instance of `infoParser_spec`: skipping an unrecognized
token and the mate encoding at distances 2, 3, 5. -/
theorem infoParser_spec_witness :
    processInfoTokens initAcc ["zzz", "depth", "7"] = processInfoTokens initAcc ["depth", "7"]
    ∧ 0 < mateEval 3 ∧ |mateEval 3| = 10000 - (3 : ℚ)
    ∧ mateEval 5 < mateEval 2
    ∧ mateEval (-2) < mateEval (-5) := by
  refine ⟨?_, ?_, ?_, ?_, ?_⟩
  · exact infoParser_spec.2.2.1 initAcc "zzz" ["depth", "7"]
      (by decide) (by decide) (by decide) (by decide)
  · exact (infoParser_spec.2.2.2.1 3 (by decide) (by decide)).1
  · exact (infoParser_spec.2.2.2.1 3 (by decide) (by decide)).2
  · exact infoParser_spec.2.2.2.2.2.1 2 5 (by decide) (by decide)
  · exact infoParser_spec.2.2.2.2.2.2 (-2) (-5) (by decide) (by decide)

/-- Claim C4: with the engine unavailable, `analyzePosition` returns
the fallback result instead of raising: its confidence is exactly 0.3
and its evaluation is the static material balance (pawn 1, knight 3,
bishop 3, rook 5, queen 9, king 0, summed per side, White minus
Black); for the standard starting position that balance is 0. -/
theorem fallback_spec (pos : FallbackPosition) (rand : ℚ) :
    analyzePositionAI none pos rand = generateFallbackAnalysis pos rand
    ∧ (generateFallbackAnalysis pos rand).confidence = 3 / 10
    ∧ (generateFallbackAnalysis pos rand).evaluation =
        ((calculateMaterial pos.board).white : ℚ) - ((calculateMaterial pos.board).black : ℚ)
    ∧ (generateFallbackAnalysis
        { board := startBoard, legalMoves := startLegalMoves } 0).evaluation = 0 := by
  refine ⟨rfl, rfl, rfl, ?_⟩
  show ((calculateMaterial startBoard).white : ℚ) - ((calculateMaterial startBoard).black : ℚ) = 0
  norm_num [show calculateMaterial startBoard = { white := 39, black := 39 } from by decide]

/-- Claim C8: `calculateConfidence` returns exactly 1.0 when fewer
than two candidate results were obtained; with two candidates whose
evaluations are numeric it returns min(1, |eval(best) − eval(second)| / 2);
and every numeric confidence value lies in [0, 1]. -/
theorem confidence_spec (bestMove : AnalysisAcc) (topMoves : List AnalysisAcc) :
    (topMoves.length < 2 → calculateConfidence bestMove topMoves = some 1)
    ∧ (∀ (second : AnalysisAcc) (a b : ℚ), topMoves.get? 1 = some second →
        bestMove.evaluation = some a → second.evaluation = some b →
        calculateConfidence bestMove topMoves = some (min 1 (|a - b| / 2)))
    ∧ (∀ c : ℚ, calculateConfidence bestMove topMoves = some c → 0 ≤ c ∧ c ≤ 1) := by
  refine ⟨?_, ?_, ?_⟩
  · intro h
    rw [calculateConfidence, if_pos h]
  · intro second a b hsec ha hb
    have hlen : 1 < topMoves.length := by
      rcases List.get?_eq_some.mp hsec with ⟨h, _⟩
      exact h
    rw [calculateConfidence, if_neg (by omega)]
    simp only [hsec, ha, hb]
  · intro c hc
    rw [calculateConfidence] at hc
    split_ifs at hc with h
    · rw [Option.some_inj] at hc
      constructor <;> simp [← hc]
    · cases hsec : topMoves.get? 1 with
      | none => rw [hsec] at hc; cases hc
      | some second =>
        rw [hsec] at hc
        cases ha : bestMove.evaluation with
        | none =>
          cases hb : second.evaluation <;> simp [ha, hb] at hc
        | some a =>
          cases hb : second.evaluation with
          | none => simp [ha, hb] at hc
          | some b =>
            simp only [ha, hb, Option.some_inj] at hc
            subst hc
            constructor
            · exact le_min (by norm_num) (by positivity)
            · exact min_le_left _ _

/-- Closed instance of `confidence_spec`: a single-candidate sweep
gives confidence 1, and a two-candidate sweep with numeric evaluations
gives the min-capped half-gap, which lies in [0, 1]. -/
theorem confidence_spec_witness :
    calculateConfidence initAcc [initAcc] = some 1
    ∧ calculateConfidence { initAcc with evaluation := some 1 }
        [initAcc, { initAcc with evaluation := some 0 }]
        = some (min 1 (|(1 : ℚ) - 0| / 2)) := by
  constructor
  · exact (confidence_spec initAcc [initAcc]).1 (by decide)
  · exact (confidence_spec { initAcc with evaluation := some 1 }
      [initAcc, { initAcc with evaluation := some 0 }]).2.1
      { initAcc with evaluation := some 0 } 1 0 rfl rfl rfl

/-- A one-ply analysis entry with no flags set, as `analyzeGame`
produces for a quiet single-move game. -/
def plainPly : PositionAnalysis :=
  { fen := "rnbqkbnr/pppppppp/8/8/8/8/PPPPPPPP/RNBQKBNR w KQkq - 0 1",
    move := "e4", analysis := [initAcc], cls := {} }

/-- Claim C9 counterexample: in a one-ply game the second mover has no
moves — hence zero blunders and zero mistakes — yet its reported
accuracy is 0, not the 100 the claim requires for a side with zero
blunders and mistakes. -/
theorem accuracy_counterexample :
    blackMovesOf [plainPly] = []
    ∧ (generateGameSummary [plainPly]).blackAccuracy = 0
    ∧ (generateGameSummary [plainPly]).blackAccuracy ≠ 100 := by
  refine ⟨rfl, rfl, by decide⟩

/-- Claim C9 amended: each side's accuracy comes from the strict
ply-parity split (even plies to the first mover, odd to the second);
on a side with at least one move it equals 100 × (moves flagged
neither blunder nor mistake) / (that side's total moves), always lies
in [0, 100], and is exactly 100 when no move of that side is flagged
blunder or mistake — but a side with zero moves is scored 0, not 100. -/
theorem accuracy_amended :
    (∀ analyses : List PositionAnalysis,
      (generateGameSummary analyses).whiteAccuracy = calculateAccuracy (whiteMovesOf analyses)
      ∧ (generateGameSummary analyses).blackAccuracy = calculateAccuracy (blackMovesOf analyses))
    ∧ (∀ moves : List PositionAnalysis,
        0 ≤ calculateAccuracy moves ∧ calculateAccuracy moves ≤ 100)
    ∧ (∀ moves : List PositionAnalysis, moves ≠ [] →
        calculateAccuracy moves
          = 100 * ((moves.filter accurateMove).length : ℚ) / (moves.length : ℚ))
    ∧ (∀ moves : List PositionAnalysis, moves ≠ [] →
        (∀ m ∈ moves, accurateMove m = true) → calculateAccuracy moves = 100)
    ∧ calculateAccuracy [] = 0 := by
  have hle : ∀ moves : List PositionAnalysis,
      ((moves.filter accurateMove).length : ℚ) ≤ (moves.length : ℚ) := by
    intro moves
    exact_mod_cast List.length_filter_le accurateMove moves
  refine ⟨fun analyses => ⟨rfl, rfl⟩, ?_, ?_, ?_, rfl⟩
  · intro moves
    rw [calculateAccuracy]
    split_ifs with h
    · norm_num
    · have hn : (0 : ℚ) < (moves.length : ℚ) := by
        have : 0 < moves.length := Nat.pos_of_ne_zero h
        exact_mod_cast this
      have hdiv : ((moves.filter accurateMove).length : ℚ) / (moves.length : ℚ) ≤ 1 :=
        (div_le_one hn).mpr (hle moves)
      have hdiv0 : (0 : ℚ) ≤ ((moves.filter accurateMove).length : ℚ) / (moves.length : ℚ) := by
        positivity
      constructor
      · nlinarith
      · nlinarith
  · intro moves h
    rw [calculateAccuracy, if_neg (by simpa using h)]
    ring
  · intro moves h hall
    rw [calculateAccuracy, if_neg (by simpa using h)]
    rw [List.filter_eq_self.mpr hall]
    rw [div_self]
    · ring
    · have : 0 < moves.length := List.length_pos.mpr h
      exact_mod_cast Nat.pos_iff_ne_zero.mp this
  -- the final conjunct was discharged by rfl above

/-- Closed instance of `accuracy_amended`: a one-ply game with no
flags gives the first mover accuracy 100. -/
theorem accuracy_amended_witness :
    calculateAccuracy [plainPly] = 100
    ∧ (0 ≤ calculateAccuracy [plainPly] ∧ calculateAccuracy [plainPly] ≤ 100) :=
  ⟨accuracy_amended.2.2.2.1 [plainPly] (by decide) (by decide),
    accuracy_amended.2.1 [plainPly]⟩

/-- The sweep loop returns at most as many results as it has
iterations left. -/
theorem getTopMovesGo_length (o : SweepOracle) :
    ∀ (fuel i : Nat), (getTopMovesGo o i fuel).length ≤ fuel := by
  intro fuel
  induction fuel with
  | zero => intro i; simp [getTopMovesGo]
  | succ k ih =>
    intro i
    rw [getTopMovesGo]
    split_ifs
    · exact le_trans (ih (i + 1)) (Nat.le_succ k)
    · simpa using ih (i + 1)
    · simp

/-- The sweep loop issues at most as many searches as it has
iterations left. -/
theorem getTopMovesCalls_le (o : SweepOracle) :
    ∀ (fuel i : Nat), getTopMovesCalls o i fuel ≤ fuel := by
  intro fuel
  induction fuel with
  | zero => intro i; simp [getTopMovesCalls]
  | succ k ih =>
    intro i
    rw [getTopMovesCalls]
    split_ifs
    · have := ih (i + 1); omega
    · have := ih (i + 1); omega
    · omega

/-- Every result the sweep loop returns passed the truthiness test on
its bestMove. -/
theorem getTopMovesGo_mem (o : SweepOracle) :
    ∀ (fuel i : Nat) (r : AnalysisAcc), r ∈ getTopMovesGo o i fuel → r.bestMove ≠ "" := by
  intro fuel
  induction fuel with
  | zero => intro i r hr; simp [getTopMovesGo] at hr
  | succ k ih =>
    intro i r hr
    rw [getTopMovesGo] at hr
    split_ifs at hr with h1 h2
    · exact ih (i + 1) r hr
    · rcases List.mem_cons.mp hr with h | h
      · subst h; exact h1
      · exact ih (i + 1) r h
    · rcases List.mem_singleton.mp hr with h
      subst h; exact h1

/-- An engine that reports the same best move for every search of the
sweep (the same FEN is searched each time with nothing excluded, so
this is a realistic engine behaviour). -/
def constSweep : SweepOracle :=
  { searchAt := fun _ => { initAcc with bestMove := "e2e4" },
    legalMove := fun _ => true }

/-- Claim C10: a `getTopMoves` sweep with requested count n issues at
most n searches and returns at most n results, every one with a
non-empty bestMove string; and since each iteration re-searches the
same original FEN without excluding the previous best move, the
returned entries are not guaranteed to be distinct (an engine
repeating its answer produces duplicates). -/
theorem getTopMoves_spec :
    (∀ (o : SweepOracle) (n : Nat),
      (getTopMoves o n).length ≤ n
      ∧ getTopMovesCalls o 0 n ≤ n
      ∧ ∀ r ∈ getTopMoves o n, r.bestMove ≠ "")
    ∧ (∃ o : SweepOracle, ¬ (getTopMoves o 2).Nodup) := by
  constructor
  · intro o n
    exact ⟨getTopMovesGo_length o n 0, getTopMovesCalls_le o n 0,
      fun r hr => getTopMovesGo_mem o n 0 r hr⟩
  · exact ⟨constSweep, by decide⟩

/-- Closed instance of `getTopMoves_spec` on a concrete sweep: the
bound on results and searches, and the non-empty bestMove of a
returned entry. -/
theorem getTopMoves_spec_witness :
    (getTopMoves constSweep 3).length ≤ 3
    ∧ getTopMovesCalls constSweep 0 3 ≤ 3
    ∧ ({ initAcc with bestMove := "e2e4" } : AnalysisAcc).bestMove ≠ "" :=
  ⟨(getTopMoves_spec.1 constSweep 3).1,
    (getTopMoves_spec.1 constSweep 3).2.1,
    (getTopMoves_spec.1 constSweep 3).2.2 { initAcc with bestMove := "e2e4" } (by decide)⟩
